import Mathlib

/-!
Verification of the emscripten syscall translation layer of
`lib/emscripten/src/syscalls/mod.rs` (the POSIX backend's generic module).

Guest linear memory is modelled as a list of bytes (`Mem`); guest addresses
are offsets into it.  Host operations performed through libc (`lseek`,
`read`, `stat`, ...) are modelled as oracle parameters giving the host's
result, since the host OS is outside the program.  Handlers are translated
function-by-function from the Rust source; helpers of the repository that
live outside the syscalls module (the `emscripten_memory_pointer!` macro,
`VarArgs::get`, `env::call_memalign`, `env::call_memset`,
`utils::copy_stat_into_wasm`) are modelled from the spec, each marked so
in its doc comment.
-/

namespace Wasmer

/-- Guest linear memory: a byte buffer owned by the execution context. -/
abbrev Mem := List Nat

/-- Read one byte of guest memory (0 when out of range; in-range reads are
the only ones the theorems rely on). -/
def readByte (m : Mem) (a : Nat) : Nat := m.getD a 0

/-- Read `l` consecutive bytes starting at guest offset `a`. -/
def readBytes (m : Mem) (a : Nat) : Nat → List Nat
  | 0 => []
  | l + 1 => readByte m a :: readBytes m (a + 1) l

/-- Write the byte list `bs` into guest memory starting at offset `a`
(`List.set` leaves the memory unchanged at out-of-range positions). -/
def writeBytes (m : Mem) (a : Nat) : List Nat → Mem
  | [] => m
  | b :: bs => writeBytes (m.set a b) (a + 1) bs

/-- Decode a little-endian 32-bit word at guest offset `a`. -/
def readWord (m : Mem) (a : Nat) : Nat :=
  readByte m a + 2 ^ 8 * readByte m (a + 1) + 2 ^ 16 * readByte m (a + 2) +
    2 ^ 24 * readByte m (a + 3)

/-- Reinterpret a 32-bit unsigned value as the signed `i32` it encodes. -/
def toI32 (n : Nat) : Int :=
  if n % 2 ^ 32 < 2 ^ 31 then ((n % 2 ^ 32 : Nat) : Int)
  else ((n % 2 ^ 32 : Nat) : Int) - 2 ^ 32

/-- Truncate an integer to its 32-bit signed value (Rust `as i32`). -/
def i32cast (x : Int) : Int :=
  if x % 2 ^ 32 < 2 ^ 31 then x % 2 ^ 32 else x % 2 ^ 32 - 2 ^ 32

/-- Reinterpret an `i32` value as the unsigned offset it encodes
(Rust `as u32` / `as usize` on a 32-bit guest offset). -/
def u32 (x : Int) : Nat := (x % 2 ^ 32).toNat

/-- Decode a little-endian signed 32-bit value at guest offset `a`. -/
def readI32 (m : Mem) (a : Nat) : Int := toI32 (readWord m a)

/-- The four little-endian bytes of the `i32` value `v`. -/
def i32Bytes (v : Int) : List Nat :=
  [u32 v % 2 ^ 8, u32 v / 2 ^ 8 % 2 ^ 8, u32 v / 2 ^ 16 % 2 ^ 8,
    u32 v / 2 ^ 24 % 2 ^ 8]

/-- Modelled from the spec: the Argument Cursor (`VarArgs` of
`varargs.rs`, not under the visible sources) holds a guest address and
yields typed values from consecutive 4-byte little-endian slots,
advancing by one slot per read. -/
structure VarArgs where
  pointer : Nat

/-- Modelled from the spec: `VarArgs::get::<u32>` — decode the current
4-byte slot little-endian as unsigned and advance the cursor by 4. -/
def VarArgs.getU32 (v : VarArgs) (m : Mem) : Nat × VarArgs :=
  (readWord m v.pointer, ⟨v.pointer + 4⟩)

/-- Modelled from the spec: `VarArgs::get::<i32>` — decode the current
4-byte slot little-endian as signed and advance the cursor by 4. -/
def VarArgs.getI32 (v : VarArgs) (m : Mem) : Int × VarArgs :=
  (readI32 m v.pointer, ⟨v.pointer + 4⟩)

/-- Modelled from the spec: the Address Translator CONTRACT of the
spec's 4.1 and 8 — given a guest offset and a required length, return a
window of exactly that length whose bytes alias the live guest memory,
or reject the access when `offset + length` exceeds the current memory
size.  This follows the spec's normative words, for comparison with the
translation the code actually performs (`emscripten_memory_pointer`
below). -/
def addressTranslatorSpec (m : Mem) (o l : Nat) : Option (List Nat) :=
  if o + l ≤ m.length then some (readBytes m o l) else none

/-- Modelled from the spec: the translation the reference code actually
performs (the `emscripten_memory_pointer!` macro, not under the visible
sources).  Per the spec's 4.1, the reference implementation performs the
translation WITHOUT an explicit length check, relying on the guest
offset alone; accordingly every call site in the syscalls module passes
only an offset, and the macro unconditionally yields the host pointer
`base + offset` (here the guest-relative offset itself).  The `Option`
codomain exists only so that the absent rejection path can be stated;
the macro never produces `none`. -/
def emscripten_memory_pointer (_m : Mem) (o : Nat) : Option Nat := some o

/- ## Basic memory lemmas -/

theorem getD_set_same (m : Mem) (a b : Nat) (h : a < m.length) :
    (m.set a b).getD a 0 = b := by
  induction m generalizing a with
  | nil => simp at h
  | cons x xs ih =>
    cases a with
    | zero => simp [List.set]
    | succ a => simpa [List.set] using ih a (by simpa using h)

theorem getD_set_other (m : Mem) (a i b : Nat) (h : i ≠ a) :
    (m.set a b).getD i 0 = m.getD i 0 := by
  induction m generalizing a i with
  | nil => simp [List.set]
  | cons x xs ih =>
    cases a with
    | zero =>
      cases i with
      | zero => exact absurd rfl h
      | succ i => simp [List.set]
    | succ a =>
      cases i with
      | zero => simp [List.set]
      | succ i => simpa [List.set] using ih a i (by omega)

theorem writeBytes_length (bs : List Nat) (m : Mem) (a : Nat) :
    (writeBytes m a bs).length = m.length := by
  induction bs generalizing m a with
  | nil => rfl
  | cons b bs ih => simpa [writeBytes] using ih (m.set a b) (a + 1)

theorem readByte_writeBytes_lt (bs : List Nat) (m : Mem) (a i : Nat)
    (h : i < a) : readByte (writeBytes m a bs) i = readByte m i := by
  induction bs generalizing m a with
  | nil => rfl
  | cons b bs ih =>
    simp only [writeBytes]
    rw [ih (m.set a b) (a + 1) (by omega)]
    exact getD_set_other m a i b (by omega)

theorem readByte_writeBytes_ge (bs : List Nat) (m : Mem) (a i : Nat)
    (h : a + bs.length ≤ i) : readByte (writeBytes m a bs) i = readByte m i := by
  induction bs generalizing m a with
  | nil => rfl
  | cons b bs ih =>
    simp only [writeBytes]
    rw [ih (m.set a b) (a + 1) (by simp at h ⊢; omega)]
    exact getD_set_other m a i b (by simp at h; omega)

theorem readBytes_writeBytes (bs : List Nat) (m : Mem) (a : Nat)
    (h : a + bs.length ≤ m.length) :
    readBytes (writeBytes m a bs) a bs.length = bs := by
  induction bs generalizing m a with
  | nil => rfl
  | cons b bs ih =>
    simp only [writeBytes, List.length_cons, readBytes, List.cons.injEq]
    refine ⟨?_, ?_⟩
    · rw [readByte_writeBytes_lt bs (m.set a b) (a + 1) a (by omega)]
      exact getD_set_same m a b (by simp at h; omega)
    · exact ih (m.set a b) (a + 1) (by simp at h ⊢; omega)

theorem writeBytes_append (bs cs : List Nat) (m : Mem) (a : Nat) :
    writeBytes m a (bs ++ cs) = writeBytes (writeBytes m a bs) (a + bs.length) cs := by
  induction bs generalizing m a with
  | nil => simp [writeBytes]
  | cons b bs ih =>
    simp only [List.cons_append, writeBytes, List.length_cons]
    show writeBytes (m.set a b) (a + 1) (bs ++ cs) =
      writeBytes (writeBytes (m.set a b) (a + 1) bs) (a + (bs.length + 1)) cs
    rw [ih (m.set a b) (a + 1)]
    congr 1
    omega

theorem readByte_writeBytes_mid (bs : List Nat) (m : Mem) (a k : Nat)
    (hk : k < bs.length) (h : a + bs.length ≤ m.length) :
    readByte (writeBytes m a bs) (a + k) = bs.getD k 0 := by
  induction bs generalizing m a k with
  | nil => exact absurd hk (by simp)
  | cons b bs ih =>
    cases k with
    | zero =>
      simp only [writeBytes, Nat.add_zero, List.getD_cons_zero]
      rw [readByte_writeBytes_lt bs (m.set a b) (a + 1) a (by omega)]
      exact getD_set_same m a b (by simp at h; omega)
    | succ k =>
      simp only [writeBytes, List.getD_cons_succ]
      rw [(by omega : a + (k + 1) = (a + 1) + k)]
      exact ih (m.set a b) (a + 1) k (by simp at hk; omega) (by simp at h ⊢; omega)

theorem u32_lt (v : Int) : u32 v < 2 ^ 32 := by
  unfold u32
  have h1 : 0 ≤ v % 2 ^ 32 := Int.emod_nonneg v (by norm_num)
  have h2 : v % 2 ^ 32 < 2 ^ 32 := Int.emod_lt_of_pos v (by norm_num)
  omega

theorem readWord_writeBytes_i32Bytes (m : Mem) (p : Nat) (v : Int)
    (h : p + 4 ≤ m.length) :
    readWord (writeBytes m p (i32Bytes v)) p = u32 v := by
  have hl : (i32Bytes v).length = 4 := rfl
  have h0 := readByte_writeBytes_mid (i32Bytes v) m p 0 (by simp [hl]) (by omega)
  have h1 := readByte_writeBytes_mid (i32Bytes v) m p 1 (by simp [hl]) (by omega)
  have h2 := readByte_writeBytes_mid (i32Bytes v) m p 2 (by simp [hl]) (by omega)
  have h3 := readByte_writeBytes_mid (i32Bytes v) m p 3 (by simp [hl]) (by omega)
  rw [Nat.add_zero] at h0
  simp only [readWord]
  rw [h1, h2, h3, h0]
  simp only [i32Bytes, List.getD_cons_zero, List.getD_cons_succ]
  have := u32_lt v
  omega

theorem i32cast_eq_self (x : Int) (h1 : -2 ^ 31 ≤ x) (h2 : x < 2 ^ 31) :
    i32cast x = x := by
  unfold i32cast
  have ha : 0 ≤ x % 2 ^ 32 := Int.emod_nonneg x (by norm_num)
  have hb : x % 2 ^ 32 < 2 ^ 32 := Int.emod_lt_of_pos x (by norm_num)
  have hc : (2 ^ 32 : Int) ∣ x - x % 2 ^ 32 := Int.dvd_sub_of_emod_eq rfl
  obtain ⟨c, hcc⟩ := hc
  split <;> omega

theorem toI32_u32 (v : Int) : toI32 (u32 v) = i32cast v := by
  unfold toI32 i32cast u32
  have ha : 0 ≤ v % 2 ^ 32 := Int.emod_nonneg v (by norm_num)
  have hb : v % 2 ^ 32 < 2 ^ 32 := Int.emod_lt_of_pos v (by norm_num)
  have h2 : (v % 2 ^ 32).toNat % 2 ^ 32 = (v % 2 ^ 32).toNat :=
    Nat.mod_eq_of_lt (by omega)
  rw [h2]
  split <;> split <;> omega

theorem readI32_writeBytes_i32Bytes (m : Mem) (p : Nat) (v : Int)
    (h : p + 4 ≤ m.length) :
    readI32 (writeBytes m p (i32Bytes v)) p = i32cast v := by
  rw [readI32, readWord_writeBytes_i32Bytes m p v h, toI32_u32]

/-- C1: the claimed bounds discipline is the spec's normative Address
Translator contract, and the code does not implement it.  At a concrete
failing input — a 16-byte guest memory and the 16-byte old-limit write of
prlimit64 at guest offset 4, so offset + length = 20 exceeds the size —
the spec's translator rejects the access, but the translation the code
performs (offset alone, no length check) still produces a host pointer;
in general the code-side translation produces a pointer for every offset
and every memory and has no rejection path at all. -/
theorem c1_address_translator_code_bug :
    addressTranslatorSpec (List.replicate 16 0) 4 16 = none ∧
    emscripten_memory_pointer (List.replicate 16 0) 4 = some 4 ∧
    ∀ (m : Mem) (o : Nat), emscripten_memory_pointer m o = some o :=
  ⟨by decide, rfl, fun _ _ => rfl⟩

/- ## lseek (`___syscall140`) -/

/-- Handler `___syscall140` (lseek), translated from the source.  `host` models
`libc::lseek`: given the descriptor, the offset and the whence it returns
the host's `off_t` result (negative on failure).  The handler reads the
descriptor, discards the high offset word, seeks with the low offset word,
truncates the host result to `i32` (`as i32`), unconditionally stores it
at the result pointer, and returns 0. -/
def ___syscall140 (host : Int → Int → Int → Int) (m : Mem) (args : VarArgs) :
    Int × Mem :=
  let r1 := args.getI32 m
  let fd := r1.1
  let r2 := r1.2.getI32 m
  let r3 := r2.2.getI32 m
  let offset_low := r3.1
  let r4 := r3.2.getI32 m
  let result_ptr_value := r4.1
  let r5 := r4.2.getI32 m
  let whence := r5.1
  let offset := offset_low
  let ret := i32cast (host fd offset whence)
  let m2 := writeBytes m (u32 result_ptr_value) (i32Bytes ret)
  (0, m2)

theorem syscall140_eq (host : Int → Int → Int → Int) (m : Mem) (a : VarArgs) :
    ___syscall140 host m a =
      (0, writeBytes m (u32 (readI32 m (a.pointer + 12)))
        (i32Bytes (i32cast (host (readI32 m a.pointer)
          (readI32 m (a.pointer + 8)) (readI32 m (a.pointer + 16)))))) := by
  simp only [___syscall140, VarArgs.getI32]

/-- Concrete memory for the lseek theorems: the vararg block at offset 0
holds fd = 3, high offset = 7, low offset = 5, result pointer = 20,
whence = 0; bytes 20..23 hold the placeholder 9, 9, 9, 9. -/
def lseekMem : Mem :=
  [3, 0, 0, 0, 7, 0, 0, 0, 5, 0, 0, 0, 20, 0, 0, 0, 0, 0, 0, 0, 9, 9, 9, 9]

/-- C2: the claim states that when the host seek fails the handler returns
-1 and leaves the guest memory at the result pointer unwritten.  The code
does neither: with a host lseek that always fails (returns -1), the
handler returns 0, and it overwrites the four bytes at the result pointer
with the failure code's little-endian bytes. -/
theorem c2_lseek_failure_counterexample :
    (___syscall140 (fun _ _ _ => -1) lseekMem ⟨0⟩).1 = 0 ∧
    (___syscall140 (fun _ _ _ => -1) lseekMem ⟨0⟩).2 ≠ lseekMem ∧
    readBytes (___syscall140 (fun _ _ _ => -1) lseekMem ⟨0⟩).2 20 4 =
      [255, 255, 255, 255] := by
  refine ⟨by decide, by decide, by decide⟩

/-- C2 (amended): for every call to lseek in which the host seek fails,
the handler still returns 0 (failure is not reported through the return
code) and writes the host's 32-bit failure result into the guest memory
at the result pointer rather than leaving it unwritten. -/
theorem c2_lseek_failure_amended (host : Int → Int → Int → Int) (m : Mem)
    (a : VarArgs) (fd low p w : Int)
    (hfd : readI32 m a.pointer = fd)
    (hlow : readI32 m (a.pointer + 8) = low)
    (hp : readI32 m (a.pointer + 12) = p)
    (hw : readI32 m (a.pointer + 16) = w)
    (hfail : host fd low w < 0) (hge : -2 ^ 31 ≤ host fd low w)
    (hb : u32 p + 4 ≤ m.length) :
    (___syscall140 host m a).1 = 0 ∧
    readI32 (___syscall140 host m a).2 (u32 p) = host fd low w := by
  rw [syscall140_eq, hfd, hlow, hp, hw]
  refine ⟨rfl, ?_⟩
  rw [readI32_writeBytes_i32Bytes m (u32 p) _ hb]
  rw [i32cast_eq_self (host fd low w) hge (by omega)]
  exact i32cast_eq_self (host fd low w) hge (by omega)

/-- Witness for the amended C2 at a concrete input: host lseek always
fails with -1; the handler returns 0 and -1 is read back at the result
pointer. -/
theorem c2_lseek_failure_amended_witness :
    (___syscall140 (fun _ _ _ => -1) lseekMem ⟨0⟩).1 = 0 ∧
    readI32 (___syscall140 (fun _ _ _ => -1) lseekMem ⟨0⟩).2 (u32 20) = -1 :=
  c2_lseek_failure_amended (fun _ _ _ => -1) lseekMem ⟨0⟩ 3 5 20 0
    (by decide) (by decide) (by decide) (by decide) (by decide) (by decide)
    (by decide)

/-- C8: for every call to lseek in which the host seek succeeds, the
handler seeks with only the low 32 bits of the offset request, writes the
resulting offset into the guest memory at the result pointer, and returns
0.  The hypotheses constrain only vararg slots 0, 2, 3 and 4 (descriptor,
low offset, result pointer, whence); slot 1, the high offset word, is
left arbitrary, so the conclusion is independent of it. -/
theorem c8_lseek_success (host : Int → Int → Int → Int) (m : Mem)
    (a : VarArgs) (fd low p w : Int)
    (hfd : readI32 m a.pointer = fd)
    (hlow : readI32 m (a.pointer + 8) = low)
    (hp : readI32 m (a.pointer + 12) = p)
    (hw : readI32 m (a.pointer + 16) = w)
    (hok : 0 ≤ host fd low w) (hlt : host fd low w < 2 ^ 31)
    (hb : u32 p + 4 ≤ m.length) :
    (___syscall140 host m a).1 = 0 ∧
    readI32 (___syscall140 host m a).2 (u32 p) = host fd low w := by
  rw [syscall140_eq, hfd, hlow, hp, hw]
  refine ⟨rfl, ?_⟩
  rw [readI32_writeBytes_i32Bytes m (u32 p) _ hb]
  rw [i32cast_eq_self (host fd low w) (by omega) hlt]
  exact i32cast_eq_self (host fd low w) (by omega) hlt

/-- Witness for C8 at a concrete input: a SEEK_SET-like host (returns the
requested offset) with low offset 5 and high offset 7 in the vararg
block; the handler returns 0 and 5 is read back at the result pointer. -/
theorem c8_lseek_success_witness :
    (___syscall140 (fun _ off _ => off) lseekMem ⟨0⟩).1 = 0 ∧
    readI32 (___syscall140 (fun _ off _ => off) lseekMem ⟨0⟩).2 (u32 20) = 5 :=
  c8_lseek_success (fun _ off _ => off) lseekMem ⟨0⟩ 3 5 20 0
    (by decide) (by decide) (by decide) (by decide) (by decide) (by decide)
    (by decide)

/- ## readv (`___syscall145`) -/

/-- Outcome of one host `libc::read` call: `err` models a negative return
value, `ok bs` a successful read placing the bytes `bs` (the return count
is `bs.length`).  The host file state is outside the program, so the
sequence of host reads performed by one `readv` call is modelled as an
oracle indexed by the call's position in the sequence. -/
inductive ReadResult where
  | err : ReadResult
  | ok : List Nat → ReadResult
deriving DecidableEq

/-- Guest address of the `iov_base` field of the `i`-th iovec element
(the source computes `iov + i * 8` in 32-bit arithmetic and dereferences
the element's first field). -/
def iovecBase (m : Mem) (iov : Int) (i : Nat) : Nat :=
  u32 (readI32 m (u32 (iov + (i : Int) * 8)))

/-- The `iov_len` field of the `i`-th iovec element, 4 bytes after its
base field. -/
def iovecLen (m : Mem) (iov : Int) (i : Nat) : Int :=
  readI32 m (u32 (iov + (i : Int) * 8) + 4)

/-- Loop of `___syscall145` over the iovec elements, translated from the
source: for each element, read its base and length out of guest memory,
perform the host read; a negative host return aborts the whole call with
-1, a successful one writes the bytes at the element's base and adds the
count to the accumulator; after the last element the accumulator is
returned truncated to `i32` (`ret as _`). -/
def readvLoop (host : Nat → ReadResult) (m : Mem) (iov : Int) (i : Nat) :
    Nat → Int → Int × Mem
  | 0, ret => (i32cast ret, m)
  | remaining + 1, ret =>
    let base := iovecBase m iov i
    let _len := iovecLen m iov i
    match host i with
    | .err => (-1, m)
    | .ok bs =>
      readvLoop host (writeBytes m base bs) iov (i + 1) remaining
        (ret + (bs.length : Int))

/-- Handler `___syscall145` (readv), translated from the source: reads fd, the
iovec array address and the element count from the vararg block, then
runs the element loop (`for i in 0..iovcnt`; a non-positive count gives
an empty loop). -/
def ___syscall145 (host : Nat → ReadResult) (m : Mem) (args : VarArgs) :
    Int × Mem :=
  let r1 := args.getI32 m
  let _fd := r1.1
  let r2 := r1.2.getI32 m
  let iov := r2.1
  let r3 := r2.2.getI32 m
  let iovcnt := r3.1
  readvLoop host m iov 0 iovcnt.toNat 0

/-- Guest memory after the writes of the first `count` iovec elements of
a `readv` call, all successful; used to state which bytes are already in
guest memory when a later element fails. -/
def readvWrites (host : Nat → ReadResult) (m : Mem) (iov : Int) (i : Nat) :
    Nat → Mem
  | 0 => m
  | count + 1 =>
    match host i with
    | .ok bs => readvWrites host (writeBytes m (iovecBase m iov i) bs) iov (i + 1) count
    | .err => m

/-- Total byte count of the host reads `i, i+1, ..., i+n-1`. -/
def lenSum (bss : Nat → List Nat) (i : Nat) : Nat → Int
  | 0 => 0
  | n + 1 => ((bss i).length : Int) + lenSum bss (i + 1) n

theorem lenSum_nonneg (bss : Nat → List Nat) (i : Nat) :
    ∀ n, 0 ≤ lenSum bss i n := by
  intro n
  induction n generalizing i with
  | zero => simp [lenSum]
  | succ n ih =>
    have := ih (i + 1)
    simp only [lenSum]
    positivity

theorem syscall145_eq (host : Nat → ReadResult) (m : Mem) (a : VarArgs) :
    ___syscall145 host m a =
      readvLoop host m (readI32 m (a.pointer + 4)) 0
        (readI32 m (a.pointer + 8)).toNat 0 := by
  simp only [___syscall145, VarArgs.getI32]

theorem readvLoop_ok (host : Nat → ReadResult) (bss : Nat → List Nat) :
    ∀ (n : Nat) (m : Mem) (iov : Int) (i : Nat) (ret : Int),
      (∀ j, i ≤ j → j < i + n → host j = .ok (bss j)) →
      (readvLoop host m iov i n ret).1 = i32cast (ret + lenSum bss i n) := by
  intro n
  induction n with
  | zero => intro m iov i ret _; simp [readvLoop, lenSum]
  | succ n ih =>
    intro m iov i ret h
    have hoki := h i le_rfl (by omega)
    simp only [readvLoop, lenSum, hoki]
    rw [ih (writeBytes m (iovecBase m iov i) (bss i)) iov (i + 1)
      (ret + ((bss i).length : Int)) (fun j h1 h2 => h j (by omega) (by omega))]
    rw [Int.add_assoc]

theorem readvLoop_err (host : Nat → ReadResult) (bss : Nat → List Nat)
    (k : Nat) (hke : host k = .err) :
    ∀ (n : Nat) (m : Mem) (iov : Int) (i : Nat) (ret : Int),
      (∀ j, i ≤ j → j < k → host j = .ok (bss j)) → i ≤ k → k < i + n →
      readvLoop host m iov i n ret = (-1, readvWrites host m iov i (k - i)) := by
  intro n
  induction n with
  | zero => intro m iov i ret _ h1 h2; omega
  | succ n ih =>
    intro m iov i ret h h1 h2
    rcases Nat.eq_or_lt_of_le h1 with he | hl
    · subst he
      simp only [readvLoop, Nat.sub_self, readvWrites, hke]
    · have hoki := h i le_rfl hl
      simp only [readvLoop, hoki]
      rw [ih (writeBytes m (iovecBase m iov i) (bss i)) iov (i + 1)
        (ret + ((bss i).length : Int)) (fun j ha hb => h j (by omega) hb)
        (by omega) (by omega)]
      rw [(by omega : k - i = (k - (i + 1)) + 1)]
      simp only [readvWrites, hoki]

/-- C3: for every call to readv, with the sequence of host reads given by
the oracle `host`: if every element's read up to the count succeeds, the
handler returns the sum of the per-element byte counts; if the reads of
elements `0..k-1` succeed and element `k`'s read fails, the handler
returns -1 — discarding the accumulated count — while the resulting guest
memory still contains the bytes written by the `k` earlier successful
elements (`readvWrites`). -/
theorem c3_readv (host : Nat → ReadResult) (bss : Nat → List Nat) (m : Mem)
    (a : VarArgs) (iov cnt : Int)
    (hiov : readI32 m (a.pointer + 4) = iov)
    (hcnt : readI32 m (a.pointer + 8) = cnt) :
    ((∀ j, j < cnt.toNat → host j = .ok (bss j)) →
      lenSum bss 0 cnt.toNat < 2 ^ 31 →
      (___syscall145 host m a).1 = lenSum bss 0 cnt.toNat) ∧
    (∀ k, (∀ j, j < k → host j = .ok (bss j)) → host k = .err →
      k < cnt.toNat →
      ___syscall145 host m a = (-1, readvWrites host m iov 0 k)) := by
  constructor
  · intro hall hlt
    rw [syscall145_eq, hiov, hcnt]
    rw [readvLoop_ok host bss cnt.toNat m iov 0 0 (fun j _ hj => hall j (by omega))]
    rw [Int.zero_add]
    exact i32cast_eq_self _ (by have := lenSum_nonneg bss 0 cnt.toNat; omega) hlt
  · intro k hpre hke hk
    rw [syscall145_eq, hiov, hcnt]
    rw [readvLoop_err host bss k hke cnt.toNat m iov 0 0
      (fun j _ hj => hpre j hj) (by omega) (by omega)]
    rw [Nat.sub_zero]

/-- Concrete memory for the readv witness: vararg block holds fd = 3,
iov = 12, iovcnt = 2; the iovec array at 12 holds (base 28, len 3) and
(base 31, len 1); bytes 28..31 start as zero. -/
def readvMem : Mem :=
  [3, 0, 0, 0, 12, 0, 0, 0, 2, 0, 0, 0, 28, 0, 0, 0, 3, 0, 0, 0,
    31, 0, 0, 0, 1, 0, 0, 0, 0, 0, 0, 0]

/-- Host oracle where both reads succeed (3 bytes, then 1 byte). -/
def readvHostOk : Nat → ReadResult
  | 0 => .ok [1, 2, 3]
  | _ => .ok [9]

/-- Host oracle where the first read succeeds with 3 bytes and the second
fails. -/
def readvHostFail : Nat → ReadResult
  | 0 => .ok [1, 2, 3]
  | _ => .err

/-- Byte sequences matching the successful reads of the two oracles. -/
def readvBss : Nat → List Nat
  | 0 => [1, 2, 3]
  | _ => [9]

/-- Witness for C3 at concrete inputs: with both reads succeeding the
handler returns 3 + 1 = 4; with the second read failing it returns -1
with the first element's 3 bytes already written into guest memory. -/
theorem c3_readv_witness :
    (___syscall145 readvHostOk readvMem ⟨0⟩).1 = 4 ∧
    ___syscall145 readvHostFail readvMem ⟨0⟩ =
      (-1, readvWrites readvHostFail readvMem 12 0 1) :=
  ⟨((c3_readv readvHostOk readvBss readvMem ⟨0⟩ 12 2 (by decide)
      (by decide)).1 (by decide) (by decide)).trans (by decide),
   (c3_readv readvHostFail readvBss readvMem ⟨0⟩ 12 2 (by decide)
      (by decide)).2 1 (by decide) (by decide) (by decide)⟩

/- ## stat64 / fstat64 (`___syscall195`, `___syscall197`) -/

/-- The eight little-endian bytes of the 64-bit-widened field value `v`. -/
def i64Bytes (v : Int) : List Nat :=
  [(v % 2 ^ 64).toNat % 2 ^ 8, (v % 2 ^ 64).toNat / 2 ^ 8 % 2 ^ 8,
    (v % 2 ^ 64).toNat / 2 ^ 16 % 2 ^ 8, (v % 2 ^ 64).toNat / 2 ^ 24 % 2 ^ 8,
    (v % 2 ^ 64).toNat / 2 ^ 32 % 2 ^ 8, (v % 2 ^ 64).toNat / 2 ^ 40 % 2 ^ 8,
    (v % 2 ^ 64).toNat / 2 ^ 48 % 2 ^ 8, (v % 2 ^ 64).toNat / 2 ^ 56 % 2 ^ 8]

/-- Host `stat` record, with the fields the spec's marshalling contract
names: device id, inode, mode, link count, uid/gid, rdev, size, block
size, block count and three 64-bit-widened timestamps. -/
structure HostStat where
  st_dev : Int
  st_ino : Int
  st_mode : Int
  st_nlink : Int
  st_uid : Int
  st_gid : Int
  st_rdev : Int
  st_size : Int
  st_blksize : Int
  st_blocks : Int
  st_atime : Int
  st_mtime : Int
  st_ctime : Int

/-- Modelled from the spec: the guest-ABI byte layout of a stat record
written by the Struct Marshaller (`utils::copy_stat_into_wasm`, not under
the visible sources).  The spec names the fields, their order and which
are 64-bit-widened (size and the three timestamps) but not the numeric
offsets, so the fields are laid out consecutively. -/
def statRecord (s : HostStat) : List Nat :=
  i32Bytes s.st_dev ++ i32Bytes s.st_ino ++ i32Bytes s.st_mode ++
    i32Bytes s.st_nlink ++ i32Bytes s.st_uid ++ i32Bytes s.st_gid ++
    i32Bytes s.st_rdev ++ i64Bytes s.st_size ++ i32Bytes s.st_blksize ++
    i32Bytes s.st_blocks ++ i64Bytes s.st_atime ++ i64Bytes s.st_mtime ++
    i64Bytes s.st_ctime

/-- Modelled from the spec: `utils::copy_stat_into_wasm` lays the full
marshalled record out at the destination guest address in one write. -/
def copy_stat_into_wasm (m : Mem) (buf : Nat) (s : HostStat) : Mem :=
  writeBytes m buf (statRecord s)

/-- Handler `___syscall195` (stat64), translated from the source.  The host
`libc::stat` call on the translated path is modelled by the oracle pair
`(hostRet, hostStat)`: its return code and the record it fills in. -/
def ___syscall195 (hostRet : Int) (hostStat : HostStat) (m : Mem)
    (args : VarArgs) : Int × Mem :=
  let r1 := args.getU32 m
  let _pathname := r1.1
  let r2 := r1.2.getU32 m
  let buf := r2.1
  if hostRet ≠ 0 then (hostRet, m)
  else (0, copy_stat_into_wasm m buf hostStat)

/-- Handler `___syscall197` (fstat64), translated from the source.  The host
`libc::fstat` call on the descriptor is modelled by the oracle pair
`(hostRet, hostStat)`. -/
def ___syscall197 (hostRet : Int) (hostStat : HostStat) (m : Mem)
    (args : VarArgs) : Int × Mem :=
  let r1 := args.getI32 m
  let _fd := r1.1
  let r2 := r1.2.getU32 m
  let buf := r2.1
  if hostRet ≠ 0 then (hostRet, m)
  else (0, copy_stat_into_wasm m buf hostStat)

/-- C4: for stat (`___syscall195`) and fstat (`___syscall197`): when the
host call succeeds (returns 0) the marshalled stat record is written into
the guest buffer and the handler returns 0; when the host call fails its
return code is propagated unchanged and the guest memory is untouched. -/
theorem c4_stat_fstat (ret : Int) (s : HostStat) (m : Mem) (a : VarArgs)
    (buf : Nat) (hbuf : readWord m (a.pointer + 4) = buf) :
    (ret = 0 →
      ___syscall195 ret s m a = (0, copy_stat_into_wasm m buf s) ∧
      ___syscall197 ret s m a = (0, copy_stat_into_wasm m buf s)) ∧
    (ret ≠ 0 →
      ___syscall195 ret s m a = (ret, m) ∧
      ___syscall197 ret s m a = (ret, m)) := by
  constructor <;> intro h <;>
    constructor <;>
      simp [___syscall195, ___syscall197, VarArgs.getU32, VarArgs.getI32, h, hbuf]

/-- Witness for C4 at concrete inputs: with a successful host stat the
record is written at buffer offset 8 and 0 is returned; with host return
code -2 the code is propagated and memory is unchanged. -/
theorem c4_stat_fstat_witness :
    (___syscall195 0 ⟨1, 2, 3, 4, 5, 6, 7, 8, 9, 10, 11, 12, 13⟩
        [1, 0, 0, 0, 8, 0, 0, 0] ⟨0⟩ =
      (0, copy_stat_into_wasm [1, 0, 0, 0, 8, 0, 0, 0] 8
        ⟨1, 2, 3, 4, 5, 6, 7, 8, 9, 10, 11, 12, 13⟩) ∧
      ___syscall197 0 ⟨1, 2, 3, 4, 5, 6, 7, 8, 9, 10, 11, 12, 13⟩
        [1, 0, 0, 0, 8, 0, 0, 0] ⟨0⟩ =
      (0, copy_stat_into_wasm [1, 0, 0, 0, 8, 0, 0, 0] 8
        ⟨1, 2, 3, 4, 5, 6, 7, 8, 9, 10, 11, 12, 13⟩)) ∧
    (___syscall195 (-2) ⟨1, 2, 3, 4, 5, 6, 7, 8, 9, 10, 11, 12, 13⟩
        [1, 0, 0, 0, 8, 0, 0, 0] ⟨0⟩ =
      (-2, [1, 0, 0, 0, 8, 0, 0, 0]) ∧
      ___syscall197 (-2) ⟨1, 2, 3, 4, 5, 6, 7, 8, 9, 10, 11, 12, 13⟩
        [1, 0, 0, 0, 8, 0, 0, 0] ⟨0⟩ =
      (-2, [1, 0, 0, 0, 8, 0, 0, 0])) :=
  ⟨(c4_stat_fstat 0 ⟨1, 2, 3, 4, 5, 6, 7, 8, 9, 10, 11, 12, 13⟩
      [1, 0, 0, 0, 8, 0, 0, 0] ⟨0⟩ 8 (by decide)).1 rfl,
   (c4_stat_fstat (-2) ⟨1, 2, 3, 4, 5, 6, 7, 8, 9, 10, 11, 12, 13⟩
      [1, 0, 0, 0, 8, 0, 0, 0] ⟨0⟩ 8 (by decide)).2 (by decide)⟩

/- ## mmap2 (`___syscall192`) -/

/-- Modelled from the spec: `env::call_memset` — the callable guest-side
memory-fill helper: fills `len` bytes at guest address `ptr` with the
byte `val`. -/
def call_memset (m : Mem) (ptr : Nat) (val : Nat) (len : Nat) : Mem :=
  writeBytes m ptr (List.replicate len val)

/-- Handler `___syscall192` (mmap2), translated from the source.
`env::call_memalign` — the callable guest-side aligned-allocation helper,
not under the visible sources — is modelled per the spec by the oracle
`memalign : alignment → length → allocated guest address`, returning 0 on
allocation failure. -/
def ___syscall192 (memalign : Nat → Nat → Nat) (m : Mem) (args : VarArgs) :
    Int × Mem :=
  let r1 := args.getI32 m
  let _addr := r1.1
  let r2 := r1.2.getU32 m
  let len := r2.1
  let r3 := r2.2.getI32 m
  let _prot := r3.1
  let r4 := r3.2.getI32 m
  let _flags := r4.1
  let r5 := r4.2.getI32 m
  let fd := r5.1
  let r6 := r5.2.getI32 m
  let _off := r6.1
  if fd = -1 then
    let ptr := memalign 16384 len
    if ptr = 0 then (-1, m)
    else (toI32 ptr, call_memset m ptr 0 len)
  else (-1, m)

/-- C5: for every call to mmap2 with descriptor -1 and length `len`: when
the guest-side allocation helper returns a non-zero address `ptr`, the
handler zero-fills the `len` allocated bytes through the guest-side
memset helper and returns `ptr` (as the 32-bit value `toI32 ptr`), with
the `len` bytes at `ptr` reading back as all-zero; when the helper
returns 0 the handler returns -1; and for every descriptor other than -1
it returns -1 without touching memory. -/
theorem c5_mmap2 (memalign : Nat → Nat → Nat) (m : Mem) (a : VarArgs)
    (len : Nat) (fd : Int)
    (hlen : readWord m (a.pointer + 4) = len)
    (hfd : readI32 m (a.pointer + 16) = fd) :
    (fd = -1 → memalign 16384 len ≠ 0 →
      ___syscall192 memalign m a =
        (toI32 (memalign 16384 len),
          call_memset m (memalign 16384 len) 0 len) ∧
      (memalign 16384 len + len ≤ m.length →
        readBytes (___syscall192 memalign m a).2 (memalign 16384 len) len =
          List.replicate len 0)) ∧
    (fd = -1 → memalign 16384 len = 0 →
      ___syscall192 memalign m a = (-1, m)) ∧
    (fd ≠ -1 → ___syscall192 memalign m a = (-1, m)) := by
  refine ⟨fun h1 h2 => ?_, fun h1 h2 => ?_, fun h1 => ?_⟩
  · have he : ___syscall192 memalign m a =
        (toI32 (memalign 16384 len), call_memset m (memalign 16384 len) 0 len) := by
      simp [___syscall192, VarArgs.getU32, VarArgs.getI32, hlen, hfd, h1, h2]
    refine ⟨he, fun hb => ?_⟩
    rw [he]
    have := readBytes_writeBytes (List.replicate len 0) m (memalign 16384 len)
      (by simpa using hb)
    simpa [call_memset] using this
  · simp [___syscall192, VarArgs.getU32, VarArgs.getI32, hlen, hfd, h1, h2]
  · simp [___syscall192, VarArgs.getU32, VarArgs.getI32, hlen, hfd, h1]

/-- Concrete memory for the mmap2 witness with descriptor -1: vararg
block holds addr = 0, len = 4, prot = 0, flags = 0, fd = -1, off = 0;
bytes 24..31 are a placeholder data region. -/
def mmapMem : Mem :=
  [0, 0, 0, 0, 4, 0, 0, 0, 0, 0, 0, 0, 0, 0, 0, 0, 255, 255, 255, 255,
    0, 0, 0, 0, 9, 9, 9, 9, 9, 9, 9, 9]

/-- Concrete memory for the mmap2 witness with descriptor 5 (same layout
as `mmapMem` except the descriptor slot). -/
def mmapMemFd5 : Mem :=
  [0, 0, 0, 0, 4, 0, 0, 0, 0, 0, 0, 0, 0, 0, 0, 0, 5, 0, 0, 0,
    0, 0, 0, 0, 9, 9, 9, 9, 9, 9, 9, 9]

/-- Witness for C5 at concrete inputs: with descriptor -1 and an
allocator returning address 24, the handler returns 24 and the 4 bytes at
24 read back zero; with an allocator returning 0 it returns -1; with
descriptor 5 it returns -1. -/
theorem c5_mmap2_witness :
    (___syscall192 (fun _ _ => 24) mmapMem ⟨0⟩ =
        (toI32 24, call_memset mmapMem 24 0 4) ∧
      readBytes (___syscall192 (fun _ _ => 24) mmapMem ⟨0⟩).2 24 4 =
        List.replicate 4 0) ∧
    ___syscall192 (fun _ _ => 0) mmapMem ⟨0⟩ = (-1, mmapMem) ∧
    ___syscall192 (fun _ _ => 24) mmapMemFd5 ⟨0⟩ = (-1, mmapMemFd5) :=
  ⟨⟨((c5_mmap2 (fun _ _ => 24) mmapMem ⟨0⟩ 4 (-1) (by decide) (by decide)).1
      (by decide) (by decide)).1,
    ((c5_mmap2 (fun _ _ => 24) mmapMem ⟨0⟩ 4 (-1) (by decide) (by decide)).1
      (by decide) (by decide)).2 (by decide)⟩,
   (c5_mmap2 (fun _ _ => 0) mmapMem ⟨0⟩ 4 (-1) (by decide) (by decide)).2.1
      (by decide) (by decide),
   (c5_mmap2 (fun _ _ => 24) mmapMemFd5 ⟨0⟩ 4 5 (by decide) (by decide)).2.2
      (by decide)⟩

/- ## prlimit64 (`___syscall340`) -/

/-- Handler `___syscall340` (prlimit64), translated from the source: reads pid,
resource, the new-limit address and the old-limit address; when the
old-limit address is non-zero it writes four little-endian -1 words
(RLIM_INFINITY) into the 16 bytes there; it always returns 0. -/
def ___syscall340 (m : Mem) (args : VarArgs) : Int × Mem :=
  let r1 := args.getI32 m
  let _pid := r1.1
  let r2 := r1.2.getI32 m
  let _resource := r2.1
  let r3 := r2.2.getU32 m
  let _new_limit := r3.1
  let r4 := r3.2.getU32 m
  let old_limit := r4.1
  if old_limit ≠ 0 then
    let m1 := writeBytes m old_limit (i32Bytes (-1))
    let m2 := writeBytes m1 (old_limit + 4) (i32Bytes (-1))
    let m3 := writeBytes m2 (old_limit + 8) (i32Bytes (-1))
    let m4 := writeBytes m3 (old_limit + 12) (i32Bytes (-1))
    (0, m4)
  else (0, m)

theorem writeBytes_chain4 (m : Mem) (p : Nat) (w : List Nat)
    (hw : w.length = 4) :
    writeBytes (writeBytes (writeBytes (writeBytes m p w) (p + 4) w)
      (p + 8) w) (p + 12) w = writeBytes m p (w ++ w ++ w ++ w) := by
  have h2 : ((w : List Nat) ++ w).length = 8 := by simp [hw]
  have h3 : ((w : List Nat) ++ w ++ w).length = 12 := by simp [hw]
  rw [writeBytes_append, writeBytes_append, writeBytes_append, hw, h2, h3]

/-- C6: every call to prlimit64 returns 0, for any pid, resource and
new-limit arguments (slots 0, 1, 2 are unconstrained); and when the
old-limit output address is non-zero and the 16 bytes at it are in
bounds, those 16 bytes are set to four consecutive little-endian -1
(0xFFFFFFFF) words. -/
theorem c6_prlimit64 (m : Mem) (a : VarArgs) (old_limit : Nat)
    (hol : readWord m (a.pointer + 12) = old_limit) :
    (___syscall340 m a).1 = 0 ∧
    (old_limit ≠ 0 → old_limit + 16 ≤ m.length →
      readBytes (___syscall340 m a).2 old_limit 16 =
        i32Bytes (-1) ++ i32Bytes (-1) ++ i32Bytes (-1) ++ i32Bytes (-1)) := by
  constructor
  · simp only [___syscall340, VarArgs.getI32, VarArgs.getU32]
    split <;> rfl
  · intro hnz hb
    have he : (___syscall340 m a).2 =
        writeBytes (writeBytes (writeBytes (writeBytes m old_limit
          (i32Bytes (-1))) (old_limit + 4) (i32Bytes (-1)))
          (old_limit + 8) (i32Bytes (-1))) (old_limit + 12) (i32Bytes (-1)) := by
      simp [___syscall340, VarArgs.getI32, VarArgs.getU32, hol, hnz]
    have hlen16 : ((i32Bytes (-1) : List Nat) ++ i32Bytes (-1) ++
        i32Bytes (-1) ++ i32Bytes (-1)).length = 16 := rfl
    rw [he, writeBytes_chain4 m old_limit (i32Bytes (-1)) rfl]
    have hr := readBytes_writeBytes
      ((i32Bytes (-1) : List Nat) ++ i32Bytes (-1) ++ i32Bytes (-1) ++
        i32Bytes (-1)) m old_limit (by rw [hlen16]; exact hb)
    rw [hlen16] at hr
    exact hr

/-- Concrete memory for the prlimit64 witness: vararg block holds
pid = 1, resource = 2, new-limit address = 0, old-limit address = 16;
bytes 16..31 are a placeholder data region. -/
def prlimitMem : Mem :=
  [1, 0, 0, 0, 2, 0, 0, 0, 0, 0, 0, 0, 16, 0, 0, 0,
    9, 9, 9, 9, 9, 9, 9, 9, 9, 9, 9, 9, 9, 9, 9, 9]

/-- Witness for C6 at a concrete input: the handler returns 0 and the 16
bytes at the old-limit address 16 become four little-endian -1 words. -/
theorem c6_prlimit64_witness :
    (___syscall340 prlimitMem ⟨0⟩).1 = 0 ∧
    readBytes (___syscall340 prlimitMem ⟨0⟩).2 16 16 =
      i32Bytes (-1) ++ i32Bytes (-1) ++ i32Bytes (-1) ++ i32Bytes (-1) :=
  ⟨(c6_prlimit64 prlimitMem ⟨0⟩ 16 (by decide)).1,
   (c6_prlimit64 prlimitMem ⟨0⟩ 16 (by decide)).2 (by decide) (by decide)⟩

/- ## getcwd (`___syscall183`) -/

/-- Handler `___syscall183` (getcwd), translated from the source.  The host
working directory string (`std::env::current_dir`, assumed available as
in the source's `unwrap`) is modelled by the oracle `cwd`, its bytes.
The handler reads the buffer offset and the size argument, writes the
path bytes followed by a NUL at the buffer offset — the written length is
`cwd.length + 1` no matter what the size argument holds — and returns the
buffer offset. -/
def ___syscall183 (cwd : List Nat) (m : Mem) (args : VarArgs) : Int × Mem :=
  let r1 := args.getI32 m
  let buf_offset := r1.1
  let r2 := r1.2.getI32 m
  let _size := r2.1
  (buf_offset, writeBytes m (u32 buf_offset) (cwd ++ [0]))

/-- C7: for every call to getcwd with host working directory bytes `cwd`,
the handler returns the supplied buffer offset unchanged and writes
exactly the bytes of `cwd` followed by a single NUL starting at that
offset.  The size argument's slot (slot 1) is left unconstrained by the
hypotheses and the write length is `cwd.length + 1` regardless of it: the
size is read but not enforced. -/
theorem c7_getcwd (cwd : List Nat) (m : Mem) (a : VarArgs) (buf : Int)
    (hbuf : readI32 m a.pointer = buf) :
    (___syscall183 cwd m a).1 = buf ∧
    (u32 buf + (cwd.length + 1) ≤ m.length →
      readBytes (___syscall183 cwd m a).2 (u32 buf) (cwd.length + 1) =
        cwd ++ [0]) := by
  constructor
  · simp [___syscall183, VarArgs.getI32, hbuf]
  · intro hb
    have he : (___syscall183 cwd m a).2 = writeBytes m (u32 buf) (cwd ++ [0]) := by
      simp [___syscall183, VarArgs.getI32, hbuf]
    rw [he]
    have := readBytes_writeBytes (cwd ++ [0]) m (u32 buf) (by simpa using hb)
    simpa using this

/-- Witness for C7 at a concrete input: host working directory `/tmp/x`
(bytes 47, 116, 109, 112, 47, 120), buffer offset 8: the handler returns
8 and the bytes `/tmp/x` plus NUL are read back at offset 8. -/
theorem c7_getcwd_witness :
    (___syscall183 [47, 116, 109, 112, 47, 120]
        [8, 0, 0, 0, 100, 0, 0, 0, 9, 9, 9, 9, 9, 9, 9, 9] ⟨0⟩).1 = 8 ∧
    readBytes (___syscall183 [47, 116, 109, 112, 47, 120]
        [8, 0, 0, 0, 100, 0, 0, 0, 9, 9, 9, 9, 9, 9, 9, 9] ⟨0⟩).2 (u32 8) 7 =
      [47, 116, 109, 112, 47, 120, 0] :=
  ⟨(c7_getcwd [47, 116, 109, 112, 47, 120]
      [8, 0, 0, 0, 100, 0, 0, 0, 9, 9, 9, 9, 9, 9, 9, 9] ⟨0⟩ 8 (by decide)).1,
   (c7_getcwd [47, 116, 109, 112, 47, 120]
      [8, 0, 0, 0, 100, 0, 0, 0, 9, 9, 9, 9, 9, 9, 9, 9] ⟨0⟩ 8 (by decide)).2
      (by decide)⟩

/- ## fcntl64 (`___syscall221`) -/

/-- Handler `___syscall221` (fcntl64), translated from the source: reads the
descriptor and the command code; command 2 returns 0, commands 13 and 14
return 0 (pretending file locking worked), every other command returns
-1; guest memory is never modified. -/
def ___syscall221 (m : Mem) (args : VarArgs) : Int × Mem :=
  let r1 := args.getI32 m
  let _fd := r1.1
  let r2 := r1.2.getU32 m
  let cmd := r2.1
  (if cmd = 2 then 0 else if cmd = 13 ∨ cmd = 14 then 0 else -1, m)

/-- C9: for every call to fcntl, command code 2 returns 0, command codes
13 and 14 return 0, and every other command code returns -1; the
descriptor slot (slot 0) is unconstrained by the hypotheses, so the
result is independent of the descriptor's value; guest memory is never
modified. -/
theorem c9_fcntl (m : Mem) (a : VarArgs) (cmd : Nat)
    (hcmd : readWord m (a.pointer + 4) = cmd) :
    ((cmd = 2 ∨ cmd = 13 ∨ cmd = 14) → (___syscall221 m a).1 = 0) ∧
    (cmd ≠ 2 → cmd ≠ 13 → cmd ≠ 14 → (___syscall221 m a).1 = -1) ∧
    (___syscall221 m a).2 = m := by
  refine ⟨fun h => ?_, fun h2 h13 h14 => ?_, rfl⟩
  · simp only [___syscall221, VarArgs.getI32, VarArgs.getU32, hcmd]
    rcases h with h | h | h <;> simp [h]
  · simp [___syscall221, VarArgs.getI32, VarArgs.getU32, hcmd, h2, h13, h14]

/-- Witness for C9 at concrete inputs: with descriptor 1, command 2 gives
0, command 13 gives 0, command 14 gives 0, and command 7 gives -1. -/
theorem c9_fcntl_witness :
    (___syscall221 [1, 0, 0, 0, 2, 0, 0, 0] ⟨0⟩).1 = 0 ∧
    (___syscall221 [1, 0, 0, 0, 13, 0, 0, 0] ⟨0⟩).1 = 0 ∧
    (___syscall221 [1, 0, 0, 0, 14, 0, 0, 0] ⟨0⟩).1 = 0 ∧
    (___syscall221 [1, 0, 0, 0, 7, 0, 0, 0] ⟨0⟩).1 = -1 :=
  ⟨(c9_fcntl [1, 0, 0, 0, 2, 0, 0, 0] ⟨0⟩ 2 (by decide)).1 (Or.inl rfl),
   (c9_fcntl [1, 0, 0, 0, 13, 0, 0, 0] ⟨0⟩ 13 (by decide)).1 (Or.inr (Or.inl rfl)),
   (c9_fcntl [1, 0, 0, 0, 14, 0, 0, 0] ⟨0⟩ 14 (by decide)).1 (Or.inr (Or.inr rfl)),
   (c9_fcntl [1, 0, 0, 0, 7, 0, 0, 0] ⟨0⟩ 7 (by decide)).2.1
     (by decide) (by decide) (by decide)⟩

/- ## exit (`___syscall1`) -/

/-- Outcome of a handler invocation: either a normal 32-bit return to the
caller together with the guest memory, or termination of the entire host
process with a status (`libc::exit`, which never returns control). -/
inductive Outcome where
  | ret : Int → Mem → Outcome
  | processExit : Int → Outcome
deriving DecidableEq

/-- Handler `___syscall1` (exit), translated from the source: reads the status
argument from the vararg block and calls `libc::exit(status)` — a
whole-host-process termination, modelled as the `processExit` outcome. -/
def ___syscall1 (m : Mem) (args : VarArgs) : Outcome :=
  let r1 := args.getI32 m
  let status := r1.1
  Outcome.processExit status

/-- C10: every call to exit terminates the whole host process with the
status read from the vararg block, and never produces a normal return:
no 32-bit result and no surviving guest memory state is ever handed back
to the caller. -/
theorem c10_exit (m : Mem) (a : VarArgs) :
    ___syscall1 m a = Outcome.processExit (readI32 m a.pointer) ∧
    ∀ v m2, ___syscall1 m a ≠ Outcome.ret v m2 :=
  ⟨rfl, fun _ _ h => Outcome.noConfusion h⟩

end Wasmer
